import Mathlib

/-!
Verification of the HtmxTodoList server (`src/main.rs`, `src/errors.rs`).

The per-session state is two session-store entries: a `BTreeMap<usize, Todo>`
under the key "todos" and a `usize` counter under the key "index".  The map is
embedded as an association list kept in strictly ascending key order (the
iteration order of a `BTreeMap`); a session entry that may be absent is an
`Option`, and a handler whose `unwrap` of a missing entry panics is embedded as
a function returning `none` in that case.
-/

namespace HtmxTodo

/-- Struct `Todo` of `main.rs`: text content and a done flag. -/
structure Todo where
  content : String
  done : Bool
deriving DecidableEq

/-- The session's `BTreeMap<usize, Todo>`, as an association list in ascending
key order. -/
abbrev TodoMap := List (Nat × Todo)

/-- Key lookup, `BTreeMap::get`. -/
def mapGet (k : Nat) : TodoMap → Option Todo
  | [] => none
  | e :: rest => if k = e.1 then some e.2 else mapGet k rest

/-- Key insertion, `BTreeMap::insert`: replaces the value when the key is
present, otherwise inserts keeping ascending key order. -/
def mapInsert (k : Nat) (v : Todo) : TodoMap → TodoMap
  | [] => [(k, v)]
  | e :: rest =>
    if k < e.1 then (k, v) :: e :: rest
    else if k = e.1 then (k, v) :: rest
    else e :: mapInsert k v rest

/-- Key removal, `BTreeMap::remove`.  A `BTreeMap` has unique keys, so removing
every entry with key `k` coincides with removing the single such entry. -/
def mapRemove (k : Nat) : TodoMap → TodoMap
  | [] => []
  | e :: rest => if e.1 = k then mapRemove k rest else e :: mapRemove k rest

/-- The mutation `todo.done = !todo.done` performed by `put_todo`. -/
def flipDone (t : Todo) : Todo := { t with done := !t.done }

/-- The in-place update done through `get_mut` in `put_todo`: flip the `done`
flag of the entry with key `k`, leaving every other entry untouched. -/
def mapToggle (k : Nat) : TodoMap → TodoMap
  | [] => []
  | e :: rest => if e.1 = k then (e.1, flipDone e.2) :: rest else e :: mapToggle k rest

/-- The two session-store entries of one session: the "todos" map and the
"index" counter.  `none` means the session store holds no value for that key. -/
structure SessionState where
  todos : Option TodoMap
  index : Option Nat
deriving DecidableEq

/-- Enum `ApplicationError` of `errors.rs`. -/
inductive ApplicationError where
  | NotFound
  | InternalError (msg : String)
deriving DecidableEq

/-- The seed item `root` inserts into a fresh session. -/
def seedTodo : Todo := { content := "A faire", done := false }

/-- The seeded map `{0: Todo { content: "A faire", done: false }}`. -/
def seedMap : TodoMap := [(0, seedTodo)]

/-- Handler `root` (GET /): when the session has no "index" value, store the
seed map and counter 0; then read the "todos" entry for rendering.  Returns
the resulting session state together with the map that gets rendered, or
`none` when the final read panics. -/
def root (s : SessionState) : Option (SessionState × TodoMap) :=
  let s₁ : SessionState :=
    match s.index with
    | none => { todos := some seedMap, index := some 0 }
    | some _ => s
  match s₁.todos with
  | none => none
  | some m => some (s₁, m)

/-- The closure `get_todos` selects from the `sort` form value: `"all"` keeps
everything, `"done"` keeps done items, anything else keeps not-done items. -/
def sortFilter (sort : String) (e : Nat × Todo) : Bool :=
  if sort = "all" then true
  else if sort = "done" then e.2.done
  else !e.2.done

/-- Handler `get_todos` (GET /todos): filter the session's map by the `sort`
value and render the survivors in iteration order; panics (`none`) when the
session holds no "todos" entry. -/
def get_todos (s : SessionState) (sort : String) : Option TodoMap :=
  match s.todos with
  | none => none
  | some m => some (List.filter (sortFilter sort) m)

/-- Handler `put_todo` (PUT /todos/:id): flip the `done` flag of the item at
`id`, or answer `NotFound` without writing anything back.  The returned `Todo`
is the flipped item the handler renders. -/
def put_todo (id : Nat) (s : SessionState) :
    Option (SessionState × Except ApplicationError Todo) :=
  match s.todos with
  | none => none
  | some m =>
    match mapGet id m with
    | none => some (s, Except.error ApplicationError.NotFound)
    | some t =>
      some ({ s with todos := some (mapToggle id m) }, Except.ok (flipDone t))

/-- Handler `create_todo` (POST /todos): read the counter `i`, store `i + 1`
as the new counter, and insert the new item at key `i + 1`.  Returns the new
session state, the allocated id and the created item. -/
def create_todo (s : SessionState) (content : String) :
    Option (SessionState × Nat × Todo) :=
  match s.todos with
  | none => none
  | some m =>
    match s.index with
    | none => none
    | some i =>
      some ({ todos := some (mapInsert (i + 1) { content := content, done := false } m),
              index := some (i + 1) },
            i + 1, { content := content, done := false })

/-- Handler `delete_todo` (DELETE /todos/:id): remove the item at `id`, or
answer `NotFound` without writing anything back. -/
def delete_todo (id : Nat) (s : SessionState) :
    Option (SessionState × Except ApplicationError Unit) :=
  match s.todos with
  | none => none
  | some m =>
    match mapGet id m with
    | none => some (s, Except.error ApplicationError.NotFound)
    | some _ => some ({ s with todos := some (mapRemove id m) }, Except.ok ())

/-- One client request against the four session-touching routes. -/
inductive Op where
  | visit
  | create (content : String)
  | toggle (id : Nat)
  | del (id : Nat)

/-- The session state after serving one request.  A panicking handler
(`none`) happens before any session write in every handler, so it leaves the
session state unchanged. -/
def applyOp (s : SessionState) : Op → SessionState
  | Op.visit => match root s with | some (s₁, _) => s₁ | none => s
  | Op.create c => match create_todo s c with | some (s₁, _) => s₁ | none => s
  | Op.toggle id => match put_todo id s with | some (s₁, _) => s₁ | none => s
  | Op.del id => match delete_todo id s with | some (s₁, _) => s₁ | none => s

/-- A brand-new session: the store holds neither entry. -/
def fresh : SessionState := { todos := none, index := none }

/-- Serve a sequence of requests. -/
def run (ops : List Op) (s : SessionState) : SessionState := ops.foldl applyOp s

/-- A session state is reachable when some request sequence produces it from a
brand-new session. -/
def Reachable (s : SessionState) : Prop := ∃ ops, s = run ops fresh

/-- The session invariant: either the session is untouched (neither entry
present) or both entries are present and every key of the map is at most the
counter. -/
def KeysBounded (s : SessionState) : Prop :=
  (s.todos = none ∧ s.index = none) ∨
  ∃ m i, s.todos = some m ∧ s.index = some i ∧ ∀ e ∈ m, e.1 ≤ i

theorem mapGet_mapInsert (k k' : Nat) (v : Todo) (m : TodoMap) :
    mapGet k (mapInsert k' v m) = if k = k' then some v else mapGet k m := by
  induction m with
  | nil => simp [mapInsert, mapGet]
  | cons e rest ih =>
    simp only [mapInsert]
    split_ifs with h1 h2 <;> simp only [mapGet, ih] <;> split_ifs <;>
      first | rfl | omega

theorem mapGet_mapRemove (k k' : Nat) (m : TodoMap) :
    mapGet k (mapRemove k' m) = if k = k' then none else mapGet k m := by
  induction m with
  | nil => simp [mapRemove, mapGet]
  | cons e rest ih =>
    simp only [mapRemove]
    split_ifs with h1 h2 <;> simp only [mapGet, ih] <;> split_ifs <;>
      first | rfl | omega

theorem mapGet_mapToggle (k k' : Nat) (m : TodoMap) :
    mapGet k (mapToggle k' m) =
      if k = k' then Option.map flipDone (mapGet k m) else mapGet k m := by
  induction m with
  | nil => simp [mapToggle, mapGet]
  | cons e rest ih =>
    simp only [mapToggle]
    split_ifs with h1 h2 <;> simp only [mapGet, ih] <;> split_ifs <;>
      first | rfl | omega

theorem flipDone_flipDone (t : Todo) : flipDone (flipDone t) = t := by
  cases t; simp [flipDone]

theorem mapToggle_mapToggle (k : Nat) (m : TodoMap) :
    mapToggle k (mapToggle k m) = m := by
  induction m with
  | nil => rfl
  | cons e rest ih =>
    obtain ⟨k₀, v₀⟩ := e
    by_cases h : k₀ = k
    · subst h
      simp [mapToggle, flipDone_flipDone]
    · simp [mapToggle, h, ih]

theorem keys_mapToggle (k : Nat) (m : TodoMap) :
    (mapToggle k m).map Prod.fst = m.map Prod.fst := by
  induction m with
  | nil => rfl
  | cons e rest ih =>
    by_cases h : e.1 = k
    · simp [mapToggle, h]
    · simp [mapToggle, h, ih]

theorem mem_mapInsert {e : Nat × Todo} (k : Nat) (v : Todo) (m : TodoMap)
    (h : e ∈ mapInsert k v m) : e = (k, v) ∨ e ∈ m := by
  induction m with
  | nil =>
    simp only [mapInsert, List.mem_singleton] at h
    exact Or.inl h
  | cons a rest ih =>
    simp only [mapInsert] at h
    split_ifs at h with h1 h2
    · simp only [List.mem_cons] at h
      rcases h with h | h | h
      · exact Or.inl h
      · exact Or.inr (by simp [h])
      · exact Or.inr (by simp [h])
    · simp only [List.mem_cons] at h
      rcases h with h | h
      · exact Or.inl h
      · exact Or.inr (by simp [h])
    · simp only [List.mem_cons] at h
      rcases h with h | h
      · exact Or.inr (by simp [h])
      · rcases ih h with h' | h'
        · exact Or.inl h'
        · exact Or.inr (by simp [h'])

theorem mem_mapRemove {e : Nat × Todo} (k : Nat) (m : TodoMap)
    (h : e ∈ mapRemove k m) : e ∈ m := by
  induction m with
  | nil => simp [mapRemove] at h
  | cons a rest ih =>
    simp only [mapRemove] at h
    split_ifs at h
    · exact List.mem_cons_of_mem a (ih h)
    · simp only [List.mem_cons] at h
      rcases h with h | h
      · simp [h]
      · exact List.mem_cons_of_mem a (ih h)

theorem mapGet_some_mem {k : Nat} {t : Todo} {m : TodoMap}
    (h : mapGet k m = some t) : (k, t) ∈ m := by
  induction m with
  | nil => exact absurd h (by simp [mapGet])
  | cons e rest ih =>
    simp only [mapGet] at h
    split_ifs at h with h1
    · cases h; cases e; cases h1; simp
    · exact List.mem_cons_of_mem e (ih h)

theorem mapInsert_eq_append {k : Nat} {v : Todo} {m : TodoMap}
    (h : ∀ e ∈ m, e.1 < k) : mapInsert k v m = m ++ [(k, v)] := by
  induction m with
  | nil => rfl
  | cons e rest ih =>
    have he : e.1 < k := h e (by simp)
    simp only [mapInsert]
    rw [if_neg (by omega), if_neg (by omega), ih (fun a ha => h a (by simp [ha]))]
    simp

theorem root_seeds (s : SessionState) (hi : s.index = none) :
    root s = some ({ todos := some seedMap, index := some 0 }, seedMap) := by
  simp [root, hi]

theorem root_noop (s : SessionState) (m : TodoMap) (i : Nat)
    (hm : s.todos = some m) (hi : s.index = some i) : root s = some (s, m) := by
  simp [root, hm, hi]

theorem put_todo_absent (id : Nat) (s : SessionState) (m : TodoMap)
    (hm : s.todos = some m) (hg : mapGet id m = none) :
    put_todo id s = some (s, Except.error ApplicationError.NotFound) := by
  simp [put_todo, hm, hg]

theorem put_todo_present (id : Nat) (s : SessionState) (m : TodoMap) (t : Todo)
    (hm : s.todos = some m) (hg : mapGet id m = some t) :
    put_todo id s =
      some ({ s with todos := some (mapToggle id m) }, Except.ok (flipDone t)) := by
  simp [put_todo, hm, hg]

theorem create_todo_eq (s : SessionState) (m : TodoMap) (i : Nat) (c : String)
    (hm : s.todos = some m) (hi : s.index = some i) :
    create_todo s c =
      some ({ todos := some (mapInsert (i + 1) { content := c, done := false } m),
              index := some (i + 1) },
            i + 1, { content := c, done := false }) := by
  simp [create_todo, hm, hi]

theorem delete_todo_absent (id : Nat) (s : SessionState) (m : TodoMap)
    (hm : s.todos = some m) (hg : mapGet id m = none) :
    delete_todo id s = some (s, Except.error ApplicationError.NotFound) := by
  simp [delete_todo, hm, hg]

theorem delete_todo_present (id : Nat) (s : SessionState) (m : TodoMap) (t : Todo)
    (hm : s.todos = some m) (hg : mapGet id m = some t) :
    delete_todo id s = some ({ s with todos := some (mapRemove id m) }, Except.ok ()) := by
  simp [delete_todo, hm, hg]

theorem applyOp_visit (s : SessionState) (m : TodoMap) (i : Nat)
    (hm : s.todos = some m) (hi : s.index = some i) : applyOp s Op.visit = s := by
  simp [applyOp, root_noop s m i hm hi]

theorem applyOp_create (s : SessionState) (m : TodoMap) (i : Nat) (c : String)
    (hm : s.todos = some m) (hi : s.index = some i) :
    applyOp s (Op.create c) =
      { todos := some (mapInsert (i + 1) { content := c, done := false } m),
        index := some (i + 1) } := by
  simp [applyOp, create_todo_eq s m i c hm hi]

theorem applyOp_toggle_absent (s : SessionState) (m : TodoMap) (id : Nat)
    (hm : s.todos = some m) (hg : mapGet id m = none) :
    applyOp s (Op.toggle id) = s := by
  simp [applyOp, put_todo_absent id s m hm hg]

theorem applyOp_toggle_present (s : SessionState) (m : TodoMap) (id : Nat) (t : Todo)
    (hm : s.todos = some m) (hg : mapGet id m = some t) :
    applyOp s (Op.toggle id) = { s with todos := some (mapToggle id m) } := by
  simp [applyOp, put_todo_present id s m t hm hg]

theorem applyOp_del_absent (s : SessionState) (m : TodoMap) (id : Nat)
    (hm : s.todos = some m) (hg : mapGet id m = none) :
    applyOp s (Op.del id) = s := by
  simp [applyOp, delete_todo_absent id s m hm hg]

theorem applyOp_del_present (s : SessionState) (m : TodoMap) (id : Nat) (t : Todo)
    (hm : s.todos = some m) (hg : mapGet id m = some t) :
    applyOp s (Op.del id) = { s with todos := some (mapRemove id m) } := by
  simp [applyOp, delete_todo_present id s m t hm hg]

theorem applyOp_no_todos (s : SessionState) (op : Op)
    (hm : s.todos = none) : applyOp s op = s ∨ op = Op.visit := by
  cases op with
  | visit => exact Or.inr rfl
  | create c => exact Or.inl (by simp [applyOp, create_todo, hm])
  | toggle id => exact Or.inl (by simp [applyOp, put_todo, hm])
  | del id => exact Or.inl (by simp [applyOp, delete_todo, hm])

theorem run_nil (s : SessionState) : run [] s = s := rfl

theorem run_cons (op : Op) (ops : List Op) (s : SessionState) :
    run (op :: ops) s = run ops (applyOp s op) := rfl

theorem keysBounded_fresh : KeysBounded fresh := Or.inl ⟨rfl, rfl⟩

theorem keysBounded_applyOp (s : SessionState) (op : Op) (h : KeysBounded s) :
    KeysBounded (applyOp s op) := by
  rcases h with ⟨ht, hi⟩ | ⟨m, i, hm, hi, hb⟩
  · rcases applyOp_no_todos s op ht with h' | h'
    · rw [h']; exact Or.inl ⟨ht, hi⟩
    · subst h'
      have : applyOp s Op.visit = { todos := some seedMap, index := some 0 } := by
        simp [applyOp, root_seeds s hi]
      rw [this]
      exact Or.inr ⟨seedMap, 0, rfl, rfl, by simp [seedMap]⟩
  · cases op with
    | visit =>
      rw [applyOp_visit s m i hm hi]
      exact Or.inr ⟨m, i, hm, hi, hb⟩
    | create c =>
      rw [applyOp_create s m i c hm hi]
      refine Or.inr ⟨_, i + 1, rfl, rfl, fun e he => ?_⟩
      rcases mem_mapInsert _ _ _ he with h' | h'
      · simp [h']
      · exact Nat.le_succ_of_le (hb e h')
    | toggle id =>
      cases hg : mapGet id m with
      | none =>
        rw [applyOp_toggle_absent s m id hm hg]
        exact Or.inr ⟨m, i, hm, hi, hb⟩
      | some t =>
        rw [applyOp_toggle_present s m id t hm hg]
        refine Or.inr ⟨mapToggle id m, i, rfl, hi, fun e he => ?_⟩
        have hk : e.1 ∈ (mapToggle id m).map Prod.fst := List.mem_map_of_mem Prod.fst he
        rw [keys_mapToggle] at hk
        obtain ⟨e', he', hfst⟩ := List.mem_map.mp hk
        exact hfst ▸ hb e' he'
    | del id =>
      cases hg : mapGet id m with
      | none =>
        rw [applyOp_del_absent s m id hm hg]
        exact Or.inr ⟨m, i, hm, hi, hb⟩
      | some t =>
        rw [applyOp_del_present s m id t hm hg]
        exact Or.inr ⟨mapRemove id m, i, rfl, hi, fun e he => hb e (mem_mapRemove id m he)⟩

theorem keysBounded_run (ops : List Op) (s : SessionState) (h : KeysBounded s) :
    KeysBounded (run ops s) := by
  induction ops generalizing s with
  | nil => exact h
  | cons op rest ih => exact ih (applyOp s op) (keysBounded_applyOp s op h)

/-- Once an id `i₀` with `i₀ ≤ counter` is absent from the map, it stays absent:
this is the state property that delete establishes and every request preserves. -/
def IdGone (i₀ : Nat) (s : SessionState) : Prop :=
  ∃ m i, s.todos = some m ∧ s.index = some i ∧ i₀ ≤ i ∧ mapGet i₀ m = none

theorem idGone_applyOp (i₀ : Nat) (s : SessionState) (op : Op) (h : IdGone i₀ s) :
    IdGone i₀ (applyOp s op) := by
  obtain ⟨m, i, hm, hi, hle, hg⟩ := h
  cases op with
  | visit =>
    rw [applyOp_visit s m i hm hi]
    exact ⟨m, i, hm, hi, hle, hg⟩
  | create c =>
    rw [applyOp_create s m i c hm hi]
    refine ⟨_, i + 1, rfl, rfl, Nat.le_succ_of_le hle, ?_⟩
    rw [mapGet_mapInsert, if_neg (by omega), hg]
  | toggle id =>
    cases hg' : mapGet id m with
    | none =>
      rw [applyOp_toggle_absent s m id hm hg']
      exact ⟨m, i, hm, hi, hle, hg⟩
    | some t =>
      rw [applyOp_toggle_present s m id t hm hg']
      refine ⟨mapToggle id m, i, rfl, hi, hle, ?_⟩
      rw [mapGet_mapToggle]
      split_ifs with h'
      · rw [h', hg']
        subst h'
        rw [hg] at hg'
        exact absurd hg' (by simp)
      · exact hg
  | del id =>
    cases hg' : mapGet id m with
    | none =>
      rw [applyOp_del_absent s m id hm hg']
      exact ⟨m, i, hm, hi, hle, hg⟩
    | some t =>
      rw [applyOp_del_present s m id t hm hg']
      refine ⟨mapRemove id m, i, rfl, hi, hle, ?_⟩
      rw [mapGet_mapRemove]
      split_ifs <;> simp [hg]

theorem idGone_run (i₀ : Nat) (ops : List Op) (s : SessionState) (h : IdGone i₀ s) :
    IdGone i₀ (run ops s) := by
  induction ops generalizing s with
  | nil => exact h
  | cons op rest ih => exact ih (applyOp s op) (idGone_applyOp i₀ s op h)

/-- After the seed and any number of creates, the key list is an initial
segment of the naturals and the counter is its largest element. -/
theorem run_creates (cs : List String) (m : TodoMap) (i : Nat)
    (h : m.map Prod.fst = List.range (i + 1)) :
    ∃ m', run (cs.map Op.create) { todos := some m, index := some i } =
        { todos := some m', index := some (i + cs.length) } ∧
      m'.map Prod.fst = List.range (i + cs.length + 1) := by
  induction cs generalizing m i with
  | nil => exact ⟨m, by simp [run_nil], by simpa using h⟩
  | cons c rest ih =>
    have hlt : ∀ e ∈ m, e.1 < i + 1 := by
      intro e he
      have : e.1 ∈ m.map Prod.fst := List.mem_map_of_mem Prod.fst he
      rw [h] at this
      exact List.mem_range.mp this
    have hstep : applyOp { todos := some m, index := some i } (Op.create c) =
        { todos := some (mapInsert (i + 1) { content := c, done := false } m),
          index := some (i + 1) } :=
      applyOp_create _ m i c rfl rfl
    have hkeys : (mapInsert (i + 1) { content := c, done := false } m).map Prod.fst =
        List.range (i + 1 + 1) := by
      simp only [mapInsert_eq_append hlt, List.map_append, h, List.map_cons, List.map_nil]
      rw [← List.range_succ]
    simp only [List.map_cons, run_cons, hstep]
    obtain ⟨m', hrun, hm'⟩ := ih _ (i + 1) hkeys
    refine ⟨m', ?_, ?_⟩
    · rw [hrun, List.length_cons]
      congr 2
      omega
    · rw [hm', List.length_cons]
      congr 1
      omega

/-- C1 counterexample: after the seed and zero creates the claim says the
stored counter is 0 + 1, but the handler leaves it at 0. -/
theorem C1_counter_counterexample :
    (run [Op.visit] fresh).index = some 0 ∧
    (run [Op.visit] fresh).index ≠ some (0 + 1) := by
  constructor
  · rfl
  · decide

/-- C1 (amended): after the seed (id 0) followed by N creates, the keys of the
session map are exactly 0, 1, ..., N in ascending order and the stored counter
equals N, so the id the next create would allocate is N + 1. -/
theorem C1_ids_and_counter (cs : List String) :
    ∃ m, (run (Op.visit :: cs.map Op.create) fresh).todos = some m ∧
      m.map Prod.fst = List.range (cs.length + 1) ∧
      (run (Op.visit :: cs.map Op.create) fresh).index = some cs.length := by
  have hseed : applyOp fresh Op.visit = { todos := some seedMap, index := some 0 } := by
    simp [applyOp, root_seeds fresh rfl]
  rw [run_cons, hseed]
  obtain ⟨m', hrun, hm'⟩ := run_creates cs seedMap 0 (by simp [seedMap, List.range_succ])
  refine ⟨m', ?_, by simpa using hm', ?_⟩
  · rw [hrun]
  · rw [hrun]
    simp

/-- C2: with a stored list, the filtered-list fragment returns, in ascending-id
order, exactly the done items for sort value "done", every item for "all", and
exactly the not-done items for any other sort value. -/
theorem C2_filtering (m : TodoMap) (ix : Option Nat) (sort : String)
    (hs : List.Pairwise (fun a b : Nat × Todo => a.1 < b.1) m) :
    ∃ r, get_todos { todos := some m, index := ix } sort = some r ∧
      List.Pairwise (fun a b : Nat × Todo => a.1 < b.1) r ∧
      (sort = "all" → r = m) ∧
      (sort = "done" → ∀ e, e ∈ r ↔ e ∈ m ∧ e.2.done = true) ∧
      (sort ≠ "all" → sort ≠ "done" → ∀ e, e ∈ r ↔ e ∈ m ∧ e.2.done = false) := by
  refine ⟨List.filter (sortFilter sort) m, by simp [get_todos], ?_, ?_, ?_, ?_⟩
  · exact List.Pairwise.sublist (List.filter_sublist m) hs
  · intro h
    subst h
    simp [sortFilter]
  · intro h
    subst h
    intro e
    simp [List.mem_filter, sortFilter]
  · intro h1 h2 e
    simp [List.mem_filter, sortFilter, h1, h2]

/-- C2 witness: a two-item list filtered with sort value "done". -/
theorem C2_filtering_witness :
    ∃ r, get_todos { todos := some [(0, { content := "a", done := true }),
        (1, { content := "b", done := false })], index := some 1 } "done" = some r ∧
      List.Pairwise (fun a b : Nat × Todo => a.1 < b.1) r := by
  obtain ⟨r, h1, h2, -⟩ := C2_filtering
    [(0, { content := "a", done := true }), (1, { content := "b", done := false })]
    (some 1) "done" (by simp)
  exact ⟨r, h1, h2⟩

/-- C3: toggling or deleting an id that is not in the list answers NotFound
and leaves the session state (list and counter) unchanged. -/
theorem C3_not_found (s : SessionState) (m : TodoMap) (id : Nat)
    (hm : s.todos = some m) (hg : mapGet id m = none) :
    put_todo id s = some (s, Except.error ApplicationError.NotFound) ∧
    delete_todo id s = some (s, Except.error ApplicationError.NotFound) :=
  ⟨put_todo_absent id s m hm hg, delete_todo_absent id s m hm hg⟩

/-- C3 witness: toggling and deleting the absent id 5 on the seeded session. -/
theorem C3_not_found_witness :
    put_todo 5 { todos := some seedMap, index := some 0 } =
      some ({ todos := some seedMap, index := some 0 },
        Except.error ApplicationError.NotFound) ∧
    delete_todo 5 { todos := some seedMap, index := some 0 } =
      some ({ todos := some seedMap, index := some 0 },
        Except.error ApplicationError.NotFound) :=
  C3_not_found { todos := some seedMap, index := some 0 } seedMap 5 rfl (by decide)

/-- C4: toggling a present id flips its done flag, and toggling the same id
again restores the whole session list, so toggle is its own inverse. -/
theorem C4_toggle_involutive (s : SessionState) (m : TodoMap) (id : Nat) (t : Todo)
    (hm : s.todos = some m) (ht : mapGet id m = some t) :
    ∃ s₁ s₂, put_todo id s = some (s₁, Except.ok (flipDone t)) ∧
      (flipDone t).done = !t.done ∧
      mapGet id (mapToggle id m) = some (flipDone t) ∧
      s₁.todos = some (mapToggle id m) ∧
      put_todo id s₁ = some (s₂, Except.ok t) ∧
      s₂.todos = s.todos ∧ s₂.index = s.index := by
  have hget : mapGet id (mapToggle id m) = some (flipDone t) := by
    rw [mapGet_mapToggle, if_pos rfl, ht]
    rfl
  refine ⟨{ s with todos := some (mapToggle id m) }, { s with todos := some m },
    put_todo_present id s m t hm ht, rfl, hget, rfl, ?_, hm.symm, rfl⟩
  have hsecond := put_todo_present id { s with todos := some (mapToggle id m) }
    (mapToggle id m) (flipDone t) rfl hget
  rw [hsecond, mapToggle_mapToggle, flipDone_flipDone]

/-- C4 witness: toggling id 0 twice on the seeded session. -/
theorem C4_toggle_involutive_witness :
    ∃ s₁ s₂, put_todo 0 { todos := some seedMap, index := some 0 } =
        some (s₁, Except.ok (flipDone seedTodo)) ∧
      (flipDone seedTodo).done = !seedTodo.done ∧
      mapGet 0 (mapToggle 0 seedMap) = some (flipDone seedTodo) ∧
      s₁.todos = some (mapToggle 0 seedMap) ∧
      put_todo 0 s₁ = some (s₂, Except.ok seedTodo) ∧
      s₂.todos = some seedMap ∧ s₂.index = some 0 :=
  C4_toggle_involutive { todos := some seedMap, index := some 0 } seedMap 0 seedTodo
    rfl (by decide)

/-- C5: a brand-new session is seeded with exactly one item — content
"A faire", not done, id 0 — and counter 0, and any later list-page request on
an already-seeded session changes neither the list nor the counter. -/
theorem C5_seeding :
    root fresh = some ({ todos := some seedMap, index := some 0 }, seedMap) ∧
    seedMap = [(0, { content := "A faire", done := false })] ∧
    (∀ m i, root { todos := some m, index := some i } =
      some ({ todos := some m, index := some i }, m)) :=
  ⟨rfl, rfl, fun m i => root_noop { todos := some m, index := some i } m i rfl rfl⟩

/-- C6: once delete removes an id from a session whose keys are bounded by the
counter, no later request sequence ever puts that id back into the list. -/
theorem C6_no_reuse (s s₁ : SessionState) (m : TodoMap) (i id : Nat)
    (hm : s.todos = some m) (hi : s.index = some i)
    (hb : ∀ e ∈ m, e.1 ≤ i)
    (hdel : delete_todo id s = some (s₁, Except.ok ()))
    (ops : List Op) (m₁ : TodoMap)
    (hrun : (run ops s₁).todos = some m₁) :
    mapGet id m₁ = none := by
  cases hg : mapGet id m with
  | none =>
    rw [delete_todo_absent id s m hm hg] at hdel
    exact absurd hdel (by simp)
  | some t =>
    rw [delete_todo_present id s m t hm hg] at hdel
    simp only [Option.some.injEq, Prod.mk.injEq, and_true] at hdel
    have hgone : IdGone id s₁ := by
      refine ⟨mapRemove id m, i, ?_, ?_, hb (id, t) (mapGet_some_mem hg), ?_⟩
      · rw [← hdel]
      · rw [← hdel]
        exact hi
      · rw [mapGet_mapRemove, if_pos rfl]
    obtain ⟨m', i', hm', hi', hle, hg'⟩ := idGone_run id ops s₁ hgone
    have : m₁ = m' := by
      have := hrun.symm.trans hm'
      exact Option.some.inj this
    rw [this]
    exact hg'

/-- C6 witness: delete id 0 from the seeded session, then create an item; id 0
stays absent. -/
theorem C6_no_reuse_witness :
    mapGet 0 [(1, { content := "y", done := false })] = none :=
  C6_no_reuse { todos := some seedMap, index := some 0 }
    { todos := some [], index := some 0 } seedMap 0 0 rfl rfl
    (by decide) rfl [Op.create "y"]
    [(1, { content := "y", done := false })] (by decide)

/-- C7: create on a session with counter c whose keys are bounded by c
allocates id c + 1 (absent from the list at that moment), advances the counter
to c + 1, inserts the new not-done item there, and leaves every previously
present item unchanged; the content string — the empty string included — is
not validated. -/
theorem C7_create (s : SessionState) (m : TodoMap) (c : Nat) (content : String)
    (hm : s.todos = some m) (hi : s.index = some c)
    (hb : ∀ e ∈ m, e.1 ≤ c) :
    mapGet (c + 1) m = none ∧
    create_todo s content =
      some ({ todos := some (mapInsert (c + 1) { content := content, done := false } m),
              index := some (c + 1) },
            c + 1, { content := content, done := false }) ∧
    mapGet (c + 1) (mapInsert (c + 1) { content := content, done := false } m) =
      some { content := content, done := false } ∧
    ∀ k, k ≠ c + 1 →
      mapGet k (mapInsert (c + 1) { content := content, done := false } m) = mapGet k m := by
  refine ⟨?_, create_todo_eq s m c content hm hi, ?_, ?_⟩
  · cases hg : mapGet (c + 1) m with
    | none => rfl
    | some t =>
      have := hb (c + 1, t) (mapGet_some_mem hg)
      omega
  · rw [mapGet_mapInsert, if_pos rfl]
  · intro k hk
    rw [mapGet_mapInsert, if_neg hk]

/-- C7 witness: creating an item with empty content on the seeded session. -/
theorem C7_create_witness :
    mapGet 1 seedMap = none ∧
    create_todo { todos := some seedMap, index := some 0 } "" =
      some ({ todos := some (mapInsert 1 { content := "", done := false } seedMap),
              index := some 1 },
            1, { content := "", done := false }) := by
  obtain ⟨h0, h1, -, -⟩ := C7_create { todos := some seedMap, index := some 0 }
    seedMap 0 "" rfl rfl (by decide)
  exact ⟨h0, h1⟩

/-- C8: the filtered-list handler assumes the session already stores a list —
under that precondition its lookup always succeeds — and on a session with no
stored list it hits the unwrap of a missing entry (modelled as `none`): it
neither seeds the session nor produces an error response. -/
theorem C8_requires_list (s : SessionState) (sort : String) :
    (∀ m, s.todos = some m →
      get_todos s sort = some (List.filter (sortFilter sort) m)) ∧
    (s.todos = none → get_todos s sort = none) := by
  constructor
  · intro m hm
    simp [get_todos, hm]
  · intro hm
    simp [get_todos, hm]

/-- C8 witness: the handler succeeds on the seeded session and fails on a
brand-new one. -/
theorem C8_requires_list_witness :
    get_todos { todos := some seedMap, index := some 0 } "all" =
      some (List.filter (sortFilter "all") seedMap) ∧
    get_todos fresh "all" = none :=
  ⟨(C8_requires_list { todos := some seedMap, index := some 0 } "all").1 seedMap rfl,
   (C8_requires_list fresh "all").2 rfl⟩

/-- C9: toggling a present id changes only that item's done flag — its content
and id, every other entry, and the counter stay as they were — and no request
of the system ever changes the content of an item that remains present. -/
theorem C9_frame (s : SessionState) (m : TodoMap) (i id : Nat) (t : Todo)
    (hm : s.todos = some m) (hi : s.index = some i)
    (hb : ∀ e ∈ m, e.1 ≤ i) (ht : mapGet id m = some t) :
    (put_todo id s =
        some ({ s with todos := some (mapToggle id m) },
          Except.ok { content := t.content, done := !t.done }) ∧
      mapGet id (mapToggle id m) = some { content := t.content, done := !t.done } ∧
      (∀ k, k ≠ id → mapGet k (mapToggle id m) = mapGet k m)) ∧
    (∀ op m₁ k t₀ t₁, mapGet k m = some t₀ →
      (applyOp s op).todos = some m₁ → mapGet k m₁ = some t₁ →
      t₁.content = t₀.content) := by
  refine ⟨⟨put_todo_present id s m t hm ht, ?_, ?_⟩, ?_⟩
  · rw [mapGet_mapToggle, if_pos rfl, ht]
    rfl
  · intro k hk
    rw [mapGet_mapToggle, if_neg hk]
  · intro op m₁ k t₀ t₁ hk hm₁ ht₁
    have hkm : m₁ = m → t₁.content = t₀.content := by
      intro h
      rw [h, hk] at ht₁
      rw [Option.some.inj ht₁]
    cases op with
    | visit =>
      rw [applyOp_visit s m i hm hi] at hm₁
      exact hkm (Option.some.inj (hm.symm.trans hm₁)).symm
    | create c =>
      rw [applyOp_create s m i c hm hi] at hm₁
      simp only [Option.some.injEq] at hm₁
      have hkle : k ≤ i := hb (k, t₀) (mapGet_some_mem hk)
      rw [← hm₁, mapGet_mapInsert, if_neg (by omega), hk] at ht₁
      rw [Option.some.inj ht₁]
    | toggle id' =>
      cases hg : mapGet id' m with
      | none =>
        rw [applyOp_toggle_absent s m id' hm hg] at hm₁
        exact hkm (Option.some.inj (hm.symm.trans hm₁)).symm
      | some u =>
        rw [applyOp_toggle_present s m id' u hm hg] at hm₁
        simp only [Option.some.injEq] at hm₁
        rw [← hm₁, mapGet_mapToggle] at ht₁
        by_cases hkid : k = id'
        · rw [if_pos hkid, hk] at ht₁
          simp only [Option.map_some'] at ht₁
          rw [← Option.some.inj ht₁]
          rfl
        · rw [if_neg hkid, hk] at ht₁
          rw [Option.some.inj ht₁]
    | del id' =>
      cases hg : mapGet id' m with
      | none =>
        rw [applyOp_del_absent s m id' hm hg] at hm₁
        exact hkm (Option.some.inj (hm.symm.trans hm₁)).symm
      | some u =>
        rw [applyOp_del_present s m id' u hm hg] at hm₁
        simp only [Option.some.injEq] at hm₁
        rw [← hm₁, mapGet_mapRemove] at ht₁
        by_cases hkid : k = id'
        · rw [if_pos hkid] at ht₁
          exact absurd ht₁ (by simp)
        · rw [if_neg hkid, hk] at ht₁
          rw [Option.some.inj ht₁]

/-- C9 witness: toggling id 0 on the seeded session flips only the done flag,
keeping the content "A faire". -/
theorem C9_frame_witness :
    put_todo 0 { todos := some seedMap, index := some 0 } =
      some ({ todos := some (mapToggle 0 seedMap), index := some 0 },
        Except.ok { content := "A faire", done := true }) :=
  (C9_frame { todos := some seedMap, index := some 0 } seedMap 0 0 seedTodo
    rfl rfl (by decide) (by decide)).1.1

/-- C10: the key-bound invariant — every key of the map is at most the
counter — holds after the seeding request, is preserved by every request, and
therefore holds in every reachable session state. -/
theorem C10_invariant :
    KeysBounded (applyOp fresh Op.visit) ∧
    (∀ s op, KeysBounded s → KeysBounded (applyOp s op)) ∧
    (∀ s, Reachable s → ∀ m i, s.todos = some m → s.index = some i →
      ∀ e ∈ m, e.1 ≤ i) := by
  refine ⟨keysBounded_applyOp fresh Op.visit keysBounded_fresh,
    fun s op h => keysBounded_applyOp s op h, ?_⟩
  rintro s ⟨ops, rfl⟩ m i hm hi e he
  rcases keysBounded_run ops fresh keysBounded_fresh with ⟨h1, -⟩ | ⟨m', i', hm', hi', hb⟩
  · rw [hm] at h1
    exact absurd h1 (by simp)
  · have hmm : m = m' := Option.some.inj (hm.symm.trans hm')
    have hii : i = i' := Option.some.inj (hi.symm.trans hi')
    subst hmm
    subst hii
    exact hb e he

/-- C10 witness: the invariant holds after a seed followed by one create. -/
theorem C10_invariant_witness :
    KeysBounded (run [Op.visit, Op.create "x"] fresh) :=
  C10_invariant.2.1 (applyOp fresh Op.visit) (Op.create "x") C10_invariant.1

end HtmxTodo
